import Mathlib

/-!
Verification development for the gurobipy-pandas binding layer: bulk
variable/constraint creation over label-indexed containers, index alignment,
name formatting, the mini formula parser, and attribute access.

The repository ships the binding's contract in its specification and doctest
documentation; the Python implementation module itself is not part of the
source tree available here, so the operational definitions below are modelled
from the specification's component contracts (sections 4.1-4.5 of the spec)
and checked against the documented doctest behaviour.
-/

namespace GPPD

/-- Modelled from the spec: a Label is a hashable scalar or fixed-size tuple of
scalars identifying one row of an indexed container (spec section 3).  Scalar
parts are represented by their string rendering, which is all the naming and
alignment contracts depend on. -/
inductive Label where
  | scalar (s : String)
  | tuple (parts : List String)
deriving DecidableEq

/-- Relational sense of a constraint: at most, equal, at least. -/
inductive Sense where
  | le
  | eq
  | ge
deriving DecidableEq

/-- Variable type constants mirrored from the solver's configuration surface. -/
inductive VType where
  | continuous
  | binary
  | integer
deriving DecidableEq

/-- Modelled from the spec: an Expression is a sum of coefficient-times-variable
terms plus a constant (spec section 3).  Variables are identified by numeric
handles. -/
structure LinExpr where
  terms : List (Rat × Nat)
  const : Rat
deriving DecidableEq

/-- Record of one created decision variable inside the model. -/
structure VarInfo where
  id : Nat
  lb : Rat
  ub : Rat
  obj : Rat
  vtype : VType
  name : Option String
deriving DecidableEq

/-- Record of one created constraint inside the model: linear row, sense,
right-hand-side constant, and optional explicit name. -/
structure ConstrInfo where
  id : Nat
  row : LinExpr
  sense : Sense
  rhsc : Rat
  name : Option String
deriving DecidableEq

/-- Value of a solver attribute: numeric or string. -/
inductive AttrVal where
  | num (q : Rat)
  | str (s : String)
deriving DecidableEq

/-- Modelled from the spec: error taxonomy of the binding (spec section 7):
alignment errors carry the offending labels, key errors name the missing
column, formula errors carry a message. -/
inductive GpError where
  | alignmentError (offending : List Label)
  | missingDataError
  | formulaError (msg : String)
  | keyError (col : String)
  | attrUnavailable
deriving DecidableEq

/-- Modelled from the spec: the external model object, holding the solver-owned
variable and constraint records, plus how many of each have been committed to
the solver's internal state (spec section 3 lifecycle), plus the queue of
attribute writes (latest first). -/
structure GRBModel where
  vars : List VarInfo
  constrs : List ConstrInfo
  committedVars : Nat
  committedConstrs : Nat
  attrChanges : List (String × Nat × AttrVal)
deriving DecidableEq

/-- The model's commit/update operation: all pending objects become visible to
attribute reads. -/
def GRBModel.commit (m : GRBModel) : GRBModel :=
  { m with committedVars := m.vars.length, committedConstrs := m.constrs.length }

/-- Labels of an indexed container, in container order. -/
def labelsOf {β : Type} (s : List (Label × β)) : List Label :=
  s.map Prod.fst

/-- Boolean duplicate-label test over a label list. -/
def hasDup : List Label → Bool
  | [] => false
  | l :: rest => rest.contains l || hasDup rest

/-- Labels occurring more than once in a label list (the offending labels
reported by a duplicate-label alignment error). -/
def dupsOf (ls : List Label) : List Label :=
  ls.filter (fun l => decide (1 < ls.count l))

/-- Labels of the first list that are absent from the second (the missing or
extra labels reported by a mismatched-set alignment error). -/
def setDiff (a b : List Label) : List Label :=
  a.filter (fun l => !(b.contains l))

/-- Lookup of a label's value in an indexed container (first occurrence). -/
def lookupLabel {β : Type} (s : List (Label × β)) (l : Label) : Option β :=
  (s.find? (fun p => p.fst == l)).map Prod.snd

/-- Modelled from the spec: per-level label-part formatting (spec section 4.2).
The formatter registered for the part's level name is applied, if any;
otherwise the part is rendered as is. -/
def formatPart (formatters : List (String × (String → String)))
    (level : String) (part : String) : String :=
  match formatters.find? (fun p => p.fst == level) with
  | some f => f.snd part
  | none => part

/-- Formats the parts of a tuple label against the index's level names. -/
def formatParts (formatters : List (String × (String → String))) :
    List String → List String → List String
  | _, [] => []
  | [], p :: ps => p :: formatParts formatters [] ps
  | n :: ns, p :: ps => formatPart formatters n p :: formatParts formatters ns ps

/-- Modelled from the spec: the Name Formatter (spec section 4.2).  A scalar
label yields base[label]; a tuple label of k parts yields the parts joined by
commas inside the brackets. -/
def format_name (base : String) (lab : Label)
    (formatters : List (String × (String → String)))
    (levelNames : List String) : String :=
  match lab with
  | .scalar s => base ++ "[" ++ formatPart formatters (levelNames.headD "") s ++ "]"
  | .tuple parts =>
      base ++ "[" ++ String.intercalate "," (formatParts formatters levelNames parts) ++ "]"

/-- Handle series returned by a bulk creation call: the source labels paired
with consecutively numbered fresh object ids starting at the given base. -/
def labeledIds {β : Type} (base : Nat) : List (Label × β) → List (Label × Nat)
  | [] => []
  | (l, _) :: rest => (l, base) :: labeledIds (base + 1) rest

/-- Modelled from the spec: a bound/type/objective argument of add_vars is a
constant broadcast to every row, a column reference resolved per row, or an
aligned value container looked up per label -- never a container misaligned
with the source, which is validated per section 4.1 (spec section 4.3). -/
inductive Param where
  | const (v : Rat)
  | col (name : String)
  | series (s : List (Label × Rat))
deriving DecidableEq

/-- One source row: per-column numeric data. -/
def Row : Type := List (String × Rat)

/-- Modelled from the spec: the data container passed to add_vars, an ordered
mapping from Label to a row of named column values. -/
structure Frame where
  rows : List (Label × Row)

/-- Column lookup within one row. -/
def lookupCol (row : Row) (c : String) : Option Rat :=
  (row.find? (fun p => p.fst == c)).map Prod.snd

/-- Modelled from the spec: validation of one creation parameter against the
source index before any resolution (spec sections 4.1/4.3): a container
argument must carry unique labels and exactly the source's label set, with an
alignment error identifying the duplicated or missing/extra labels otherwise;
constants and column references need no alignment. -/
def checkParam (srcLabels : List Label) (p : Param) : Except GpError Unit :=
  match p with
  | .const _ => .ok ()
  | .col _ => .ok ()
  | .series s =>
      if hasDup (labelsOf s) then .error (.alignmentError (dupsOf (labelsOf s)))
      else
        let off := setDiff srcLabels (labelsOf s) ++ setDiff (labelsOf s) srcLabels
        if off.isEmpty then .ok () else .error (.alignmentError off)

/-- Resolves one creation parameter against one row: constants broadcast,
column references are looked up within the row (a missing column is a key
error naming it), and container arguments are looked up at the row's label. -/
def resolveParam (p : Param) (l : Label) (row : Row) : Except GpError Rat :=
  match p with
  | .const v => .ok v
  | .col c =>
      match lookupCol row c with
      | some v => .ok v
      | none => .error (.keyError c)
  | .series s =>
      match lookupLabel s l with
      | some v => .ok v
      | none => .error (.alignmentError [l])

/-- Bundled creation parameters of add_vars. -/
structure VarParams where
  lb : Param
  ub : Param
  obj : Param
  vtype : VType
  name : Option String

/-- Validates the lower bound, upper bound and objective parameters against
the source index, in that order, surfacing the first failure. -/
def checkParams (srcLabels : List Label) (ps : VarParams) : Except GpError Unit :=
  match checkParam srcLabels ps.lb with
  | .error e => .error e
  | .ok _ =>
      match checkParam srcLabels ps.ub with
      | .error e => .error e
      | .ok _ => checkParam srcLabels ps.obj

/-- Resolves the lower bound, upper bound and objective parameters of one row. -/
def resolveRow (ps : VarParams) (l : Label) (row : Row) :
    Except GpError (Rat × Rat × Rat) :=
  match resolveParam ps.lb l row, resolveParam ps.ub l row,
      resolveParam ps.obj l row with
  | .ok a, .ok b, .ok c => .ok (a, b, c)
  | .error e, _, _ => .error e
  | .ok _, .error e, _ => .error e
  | .ok _, .ok _, .error e => .error e

/-- Resolves every row of the source, in index order. -/
def resolveRowsAux (ps : VarParams) : List (Label × Row) →
    Except GpError (List (Label × Rat × Rat × Rat))
  | [] => .ok []
  | (l, row) :: rest =>
      match resolveRow ps l row, resolveRowsAux ps rest with
      | .ok v, .ok t => .ok ((l, v) :: t)
      | .error e, _ => .error e
      | .ok _, .error e => .error e

/-- Resolution of a bulk call's parameters: container arguments are first
validated against the source index per section 4.1, then every row is
resolved in index order; validation happens before any resolution so a
misaligned container aborts the call up front. -/
def resolveRows (ps : VarParams) (rows : List (Label × Row)) :
    Except GpError (List (Label × Rat × Rat × Rat)) :=
  match checkParams (labelsOf rows) ps with
  | .error e => .error e
  | .ok _ => resolveRowsAux ps rows

/-- Creates one variable record per resolved row, ids numbered consecutively
from the given base, named through the Name Formatter when a base name is
given. -/
def createVars (base : Nat) (vtype : VType) (nm : Option String)
    (formatters : List (String × (String → String))) (levelNames : List String) :
    List (Label × Rat × Rat × Rat) → List VarInfo
  | [] => []
  | (l, lb, ub, obj) :: rest =>
      { id := base, lb := lb, ub := ub, obj := obj, vtype := vtype,
        name := nm.map (fun b => format_name b l formatters levelNames) } ::
        createVars (base + 1) vtype nm formatters levelNames rest

/-- Modelled from the spec: the Bulk Variable Creator add_vars (spec section
4.3), with the process-wide interactive-mode flag threaded as an explicit
argument (it is read once per bulk call).  Duplicate labels in the source are
an alignment error; column references that do not resolve are a key error; on
any error the model is returned unchanged.  Otherwise one variable per label
is created in index order and the handles are returned as a series over the
same index; interactive mode commits the pending objects. -/
def add_vars (interactive : Bool) (m : GRBModel) (src : Frame) (ps : VarParams)
    (formatters : List (String × (String → String))) (levelNames : List String) :
    GRBModel × Except GpError (List (Label × Nat)) :=
  if hasDup (labelsOf src.rows) then
    (m, .error (.alignmentError (dupsOf (labelsOf src.rows))))
  else
    match resolveRows ps src.rows with
    | .error e => (m, .error e)
    | .ok resolved =>
        let m2 : GRBModel :=
          { m with vars :=
              m.vars ++ createVars m.vars.length ps.vtype ps.name formatters levelNames resolved }
        (if interactive then m2.commit else m2, .ok (labeledIds m.vars.length resolved))

/-- Negated term list of an expression, used to move a right-hand side to the
left when forming a constraint row. -/
def negTerms (e : LinExpr) : List (Rat × Nat) :=
  e.terms.map (fun t => (-t.fst, t.snd))

/-- Linear row stored for the constraint lhs SENSE rhs: the variable terms of
lhs minus those of rhs, constants moved to the right-hand side. -/
def constrRow (a b : LinExpr) : LinExpr :=
  { terms := a.terms ++ negTerms b, const := 0 }

/-- Creates one constraint record per aligned row, ids numbered consecutively
from the given base, all carrying the requested sense. -/
def createConstrs (base : Nat) (sense : Sense) (nm : Option String)
    (formatters : List (String × (String → String))) (levelNames : List String) :
    List (Label × LinExpr × LinExpr) → List ConstrInfo
  | [] => []
  | (l, a, b) :: rest =>
      { id := base, row := constrRow a b, sense := sense, rhsc := b.const - a.const,
        name := nm.map (fun s => format_name s l formatters levelNames) } ::
        createConstrs (base + 1) sense nm formatters levelNames rest

/-- Joins the two aligned sides label-wise: each lhs row is paired with the rhs
value found at the same label.  Entries are optional because a NaN datum is
represented as a missing value. -/
def joinSides (lhs rhs : List (Label × Option LinExpr)) :
    List (Label × Option LinExpr × Option LinExpr) :=
  lhs.map (fun p => (p.fst, p.snd, (lookupLabel rhs p.fst).join))

/-- True when some joined entry has a missing value on either side. -/
def anyMissing (zipped : List (Label × Option LinExpr × Option LinExpr)) : Bool :=
  zipped.any (fun t => t.snd.fst.isNone || t.snd.snd.isNone)

/-- Extracts the present values of the joined rows (total: absent values
default to the zero expression, a case ruled out by the missing-data check). -/
def presentRows (zipped : List (Label × Option LinExpr × Option LinExpr)) :
    List (Label × LinExpr × LinExpr) :=
  zipped.map (fun t => (t.fst, t.snd.fst.getD { terms := [], const := 0 },
    t.snd.snd.getD { terms := [], const := 0 }))

/-- Modelled from the spec: the Bulk Constraint Creator add_constrs, expression
form (spec section 4.4), with the interactive-mode flag threaded explicitly.
Duplicate labels on either side are an alignment error; label sets differing
by at least one label are an alignment error identifying the missing and extra
labels; any NaN in the aligned data is a missing-data error.  All validation
happens before any constraint is created, so the model is returned unchanged
on every error.  Otherwise one constraint per shared label is created with the
requested sense, and the handles are returned over the lhs index order. -/
def add_constrs (interactive : Bool) (m : GRBModel)
    (lhs : List (Label × Option LinExpr)) (sense : Sense)
    (rhs : List (Label × Option LinExpr)) (nm : Option String)
    (formatters : List (String × (String → String))) (levelNames : List String) :
    GRBModel × Except GpError (List (Label × Nat)) :=
  if hasDup (labelsOf lhs) || hasDup (labelsOf rhs) then
    (m, .error (.alignmentError (dupsOf (labelsOf lhs) ++ dupsOf (labelsOf rhs))))
  else
    let off := setDiff (labelsOf lhs) (labelsOf rhs) ++ setDiff (labelsOf rhs) (labelsOf lhs)
    if off.isEmpty then
      let zipped := joinSides lhs rhs
      if anyMissing zipped then
        (m, .error .missingDataError)
      else
        let newcs := createConstrs m.constrs.length sense nm formatters levelNames
          (presentRows zipped)
        let m2 : GRBModel := { m with constrs := m.constrs ++ newcs }
        (if interactive then m2.commit else m2, .ok (labeledIds m.constrs.length zipped))
    else
      (m, .error (.alignmentError off))

/-- Modelled from the spec: the solver's default name for a constraint created
without an explicit name, as surfaced in the documented doctests (R0, R1, ...). -/
def effectiveConstrName (c : ConstrInfo) : String :=
  match c.name with
  | some s => s
  | none => "R" ++ Nat.repr c.id

/-- Creation-time attribute of a committed variable record. -/
def builtinAttr (v : VarInfo) (attr : String) : Except GpError AttrVal :=
  if attr == "LB" then .ok (.num v.lb)
  else if attr == "UB" then .ok (.num v.ub)
  else if attr == "Obj" then .ok (.num v.obj)
  else if attr == "VarName" then
    .ok (.str (match v.name with | some s => s | none => "C" ++ Nat.repr v.id))
  else .error .attrUnavailable

/-- Modelled from the spec: attribute read on one variable handle (spec section
4.5).  A handle not yet committed to the solver's internal state surfaces the
solver's attribute-unavailable error; otherwise the latest queued write wins,
falling back to the creation-time value. -/
def getAttrVar (m : GRBModel) (attr : String) (vid : Nat) : Except GpError AttrVal :=
  if vid < m.committedVars then
    match m.attrChanges.find? (fun c => c.fst == attr && c.snd.fst == vid) with
    | some c => .ok c.snd.snd
    | none =>
        match m.vars.find? (fun v => v.id == vid) with
        | some v => builtinAttr v attr
        | none => .error .attrUnavailable
  else .error .attrUnavailable

/-- Modelled from the spec: element-wise attribute read over a series of
variable handles, querying the model once per label in index order and
returning an aligned container of results. -/
def get_attr (m : GRBModel) (handles : List (Label × Nat)) (attr : String) :
    Except GpError (List (Label × AttrVal)) :=
  match handles with
  | [] => .ok []
  | (l, h) :: rest =>
      match getAttrVar m attr h, get_attr m rest attr with
      | .ok v, .ok t => .ok ((l, v) :: t)
      | .error e, _ => .error e
      | .ok _, .error e => .error e

/-- The model after queueing a batch of attribute writes, newest first. -/
def withWrites (m : GRBModel) (ws : List (String × Nat × AttrVal)) : GRBModel :=
  { m with attrChanges := ws ++ m.attrChanges }

/-- One queued write per handle of a series: the attribute name, the handle,
and the aligned value looked up at the handle's label. -/
def writesFor (handles : List (Label × Nat)) (attr : String)
    (values : List (Label × Rat)) : List (String × Nat × AttrVal) :=
  handles.map (fun p => (attr, p.snd, AttrVal.num ((lookupLabel values p.fst).getD 0)))

/-- Modelled from the spec: element-wise attribute write over a series of
variable handles given an aligned value series (spec section 4.5).  Alignment
is validated as in section 4.1 before any write is queued. -/
def set_attr (m : GRBModel) (handles : List (Label × Nat)) (attr : String)
    (values : List (Label × Rat)) : GRBModel × Except GpError Unit :=
  if hasDup (labelsOf handles) || hasDup (labelsOf values) then
    (m, .error (.alignmentError (dupsOf (labelsOf handles) ++ dupsOf (labelsOf values))))
  else
    let off := setDiff (labelsOf handles) (labelsOf values) ++
      setDiff (labelsOf values) (labelsOf handles)
    if off.isEmpty then
      (withWrites m (writesFor handles attr values), .ok ())
    else
      (m, .error (.alignmentError off))

/-- Addition of linear expressions: terms concatenate, constants add. -/
def linAdd (a b : LinExpr) : LinExpr :=
  { terms := a.terms ++ b.terms, const := a.const + b.const }

/-- The zero linear expression, the start value of a series summation. -/
def linZero : LinExpr :=
  { terms := [], const := 0 }

/-- The tabular library's built-in series summation: a left fold of expression
addition starting from zero. -/
def seriesSum (xs : List LinExpr) : LinExpr :=
  xs.foldl linAdd linZero

/-- Modelled from the spec: the solver library's optimised summation, building
the result's term list and constant in one pass. -/
def quicksum (xs : List LinExpr) : LinExpr :=
  { terms := (xs.map LinExpr.terms).flatten, const := (xs.map LinExpr.const).sum }

/-- Token of the restricted constraint-formula language. -/
inductive Tok where
  | ident (s : String)
  | num (n : Nat)
  | plus
  | minus
  | star
  | slash
  | lparen
  | rparen
  | rel (s : Sense)
deriving DecidableEq

/-- First character of an identifier: a letter or underscore. -/
def isIdentStart (c : Char) : Bool :=
  c.isAlpha || c == '_'

/-- Later character of an identifier: alphanumeric or underscore. -/
def isIdentRest (c : Char) : Bool :=
  c.isAlphanum || c == '_'

/-- Numeric value of a digit string. -/
def digitsToNat (ds : List Char) : Nat :=
  ds.foldl (fun a c => a * 10 + (c.toNat - 48)) 0

/-- Fuel-bounded tokenizer of the formula language: identifiers, natural
number literals, arithmetic operators, parentheses, and the three relational
operators written with two characters each. -/
def tokenizeAux : Nat → List Char → Except GpError (List Tok)
  | 0, _ => .error (.formulaError "formula too long")
  | _, [] => .ok []
  | fuel + 1, c :: cs =>
      if c == ' ' then tokenizeAux fuel cs
      else if c == '+' then (tokenizeAux fuel cs).map (fun ts => Tok.plus :: ts)
      else if c == '-' then (tokenizeAux fuel cs).map (fun ts => Tok.minus :: ts)
      else if c == '*' then (tokenizeAux fuel cs).map (fun ts => Tok.star :: ts)
      else if c == '/' then (tokenizeAux fuel cs).map (fun ts => Tok.slash :: ts)
      else if c == '(' then (tokenizeAux fuel cs).map (fun ts => Tok.lparen :: ts)
      else if c == ')' then (tokenizeAux fuel cs).map (fun ts => Tok.rparen :: ts)
      else if c == '<' then
        match cs with
        | '=' :: rest => (tokenizeAux fuel rest).map (fun ts => Tok.rel .le :: ts)
        | _ => .error (.formulaError "invalid relational operator")
      else if c == '>' then
        match cs with
        | '=' :: rest => (tokenizeAux fuel rest).map (fun ts => Tok.rel .ge :: ts)
        | _ => .error (.formulaError "invalid relational operator")
      else if c == '=' then
        match cs with
        | '=' :: rest => (tokenizeAux fuel rest).map (fun ts => Tok.rel .eq :: ts)
        | _ => .error (.formulaError "invalid relational operator")
      else if c.isDigit then
        (tokenizeAux fuel ((c :: cs).dropWhile Char.isDigit)).map
          (fun ts => Tok.num (digitsToNat ((c :: cs).takeWhile Char.isDigit)) :: ts)
      else if isIdentStart c then
        (tokenizeAux fuel ((c :: cs).dropWhile isIdentRest)).map
          (fun ts => Tok.ident (String.mk ((c :: cs).takeWhile isIdentRest)) :: ts)
      else .error (.formulaError "unexpected character")

/-- Tokenizes a formula string. -/
def tokenize (s : String) : Except GpError (List Tok) :=
  tokenizeAux (s.length + 1) s.data

/-- True on a relational-operator token. -/
def isRel : Tok → Bool
  | .rel _ => true
  | _ => false

/-- Splits the token list at its relational operator: zero or more than one
relational operator is a formula error (spec section 4.4 form B). -/
def splitAtRel (ts : List Tok) : Except GpError (List Tok × Sense × List Tok) :=
  match ts.filter isRel with
  | [Tok.rel s] =>
      .ok (ts.takeWhile (fun t => !isRel t),
        s, (ts.dropWhile (fun t => !isRel t)).drop 1)
  | [] => .error (.formulaError "no relational operator in formula")
  | _ => .error (.formulaError "multiple relational operators in formula")

/-- Abstract syntax of one side of a parsed formula: column references,
number literals, and the four arithmetic operators. -/
inductive FTerm where
  | col (s : String)
  | num (n : Nat)
  | neg (a : FTerm)
  | add (a b : FTerm)
  | sub (a b : FTerm)
  | mul (a b : FTerm)
  | div (a b : FTerm)
deriving DecidableEq

mutual

/-- Fuel-bounded parser of an additive expression. -/
def parseExpr : Nat → List Tok → Except GpError (FTerm × List Tok)
  | 0, _ => .error (.formulaError "formula too deep")
  | fuel + 1, ts =>
      match parseTerm fuel ts with
      | .error e => .error e
      | .ok (t, rest) => parseExprRest fuel t rest

/-- Left-associated continuation of an additive expression. -/
def parseExprRest : Nat → FTerm → List Tok → Except GpError (FTerm × List Tok)
  | 0, _, _ => .error (.formulaError "formula too deep")
  | fuel + 1, acc, Tok.plus :: ts =>
      match parseTerm fuel ts with
      | .error e => .error e
      | .ok (t, rest) => parseExprRest fuel (FTerm.add acc t) rest
  | fuel + 1, acc, Tok.minus :: ts =>
      match parseTerm fuel ts with
      | .error e => .error e
      | .ok (t, rest) => parseExprRest fuel (FTerm.sub acc t) rest
  | _ + 1, acc, ts => .ok (acc, ts)

/-- Fuel-bounded parser of a multiplicative expression. -/
def parseTerm : Nat → List Tok → Except GpError (FTerm × List Tok)
  | 0, _ => .error (.formulaError "formula too deep")
  | fuel + 1, ts =>
      match parseFactor fuel ts with
      | .error e => .error e
      | .ok (f, rest) => parseTermRest fuel f rest

/-- Left-associated continuation of a multiplicative expression. -/
def parseTermRest : Nat → FTerm → List Tok → Except GpError (FTerm × List Tok)
  | 0, _, _ => .error (.formulaError "formula too deep")
  | fuel + 1, acc, Tok.star :: ts =>
      match parseFactor fuel ts with
      | .error e => .error e
      | .ok (f, rest) => parseTermRest fuel (FTerm.mul acc f) rest
  | fuel + 1, acc, Tok.slash :: ts =>
      match parseFactor fuel ts with
      | .error e => .error e
      | .ok (f, rest) => parseTermRest fuel (FTerm.div acc f) rest
  | _ + 1, acc, ts => .ok (acc, ts)

/-- Fuel-bounded parser of an atomic factor: a name, a literal, a negation, or
a parenthesized expression. -/
def parseFactor : Nat → List Tok → Except GpError (FTerm × List Tok)
  | 0, _ => .error (.formulaError "formula too deep")
  | _ + 1, Tok.ident s :: ts => .ok (FTerm.col s, ts)
  | _ + 1, Tok.num n :: ts => .ok (FTerm.num n, ts)
  | fuel + 1, Tok.minus :: ts =>
      match parseFactor fuel ts with
      | .error e => .error e
      | .ok (f, rest) => .ok (FTerm.neg f, rest)
  | fuel + 1, Tok.lparen :: ts =>
      match parseExpr fuel ts with
      | .error e => .error e
      | .ok (e, Tok.rparen :: rest) => .ok (e, rest)
      | .ok (_, _) => .error (.formulaError "expected closing parenthesis")
  | _ + 1, _ => .error (.formulaError "expected name, number or parenthesis")

end

/-- Parses one full side of a formula; trailing tokens are a formula error. -/
def parseSide (ts : List Tok) : Except GpError FTerm :=
  match parseExpr (3 * ts.length + 3) ts with
  | .error e => .error e
  | .ok (f, []) => .ok f
  | .ok (_, _ :: _) => .error (.formulaError "trailing tokens in formula")

/-- Column names referenced by a parsed side. -/
def ftermCols : FTerm → List String
  | .col s => [s]
  | .num _ => []
  | .neg a => ftermCols a
  | .add a b => ftermCols a ++ ftermCols b
  | .sub a b => ftermCols a ++ ftermCols b
  | .mul a b => ftermCols a ++ ftermCols b
  | .div a b => ftermCols a ++ ftermCols b

/-- Modelled from the spec: the formula-string front end of add_constrs (spec
section 4.4 form B).  The string is tokenized, split at its unique relational
operator, both sides are parsed as arithmetic over column names, and every
referenced name must be a column of the source frame; each failure is a
formula error. -/
def parse_formula (columns : List String) (s : String) :
    Except GpError (FTerm × Sense × FTerm) :=
  match tokenize s with
  | .error e => .error e
  | .ok toks =>
      match splitAtRel toks with
      | .error e => .error e
      | .ok (lt, sense, rt) =>
          match parseSide lt, parseSide rt with
          | .error e, _ => .error e
          | .ok _, .error e => .error e
          | .ok lf, .ok rf =>
              match (ftermCols lf ++ ftermCols rf).find?
                  (fun c => !(columns.contains c)) with
              | some c => .error (.formulaError ("unknown column: " ++ c))
              | none => .ok (lf, sense, rf)

/-- True exactly on a formula error, the outcome the parser contract promises
for each malformed input. -/
def isFormulaError {α : Type} : Except GpError α → Bool
  | .error (.formulaError _) => true
  | _ => false

/-- Names (explicit or absent) of the variables a bulk call appended to a
model that previously held the given number of variables. -/
def newVarNames (oldLen : Nat) (m : GRBModel) : List (Option String) :=
  (m.vars.drop oldLen).map VarInfo.name

/-- The constraints a bulk call appended to a model that previously held the
given number of constraints. -/
def newConstrsOf (oldLen : Nat) (m : GRBModel) : List ConstrInfo :=
  m.constrs.drop oldLen

/-- A freshly opened model with no objects. -/
def emptyModel : GRBModel :=
  { vars := [], constrs := [], committedVars := 0, committedConstrs := 0, attrChanges := [] }

/-- A model already holding one committed continuous variable. -/
def oneVarModel : GRBModel :=
  { vars := [{ id := 0, lb := 0, ub := 1, obj := 0, vtype := .continuous, name := none }],
    constrs := [], committedVars := 1, committedConstrs := 0, attrChanges := [] }

/-- Sample left-hand side: the single variable 0 over label a. -/
def sampleLhs : List (Label × Option LinExpr) :=
  [(Label.scalar "a", some { terms := [(1, 0)], const := 0 })]

/-- Sample right-hand side: the constant 1 over label a. -/
def sampleRhs : List (Label × Option LinExpr) :=
  [(Label.scalar "a", some { terms := [], const := 1 })]

/-- Sample left-hand side with a missing (NaN) entry over label a. -/
def sampleLhsNaN : List (Label × Option LinExpr) :=
  [(Label.scalar "a", none)]

/-- Sample right-hand side over label b only, misaligned with label a data. -/
def sampleRhsB : List (Label × Option LinExpr) :=
  [(Label.scalar "b", some { terms := [], const := 1 })]

/-- Sample variable-creation parameters: all constants, no name. -/
def samplePs : VarParams :=
  { lb := .const 0, ub := .const 1, obj := .const 0, vtype := .continuous, name := none }

/-- Sample parameters whose upper bound is a value container over label b
only, misaligned with a label-a source. -/
def samplePsMis : VarParams :=
  { lb := .const 0, ub := .series [(Label.scalar "b", 1)], obj := .const 0,
    vtype := .continuous, name := none }

/-- Sample left-hand side with a duplicated label a. -/
def sampleLhsDup : List (Label × Option LinExpr) :=
  [(Label.scalar "a", some { terms := [(1, 0)], const := 0 }),
    (Label.scalar "a", some { terms := [], const := 0 })]

theorem labelsOf_labeledIds {β : Type} (base : Nat) (s : List (Label × β)) :
    labelsOf (labeledIds base s) = labelsOf s := by
  induction s generalizing base with
  | nil => rfl
  | cons p rest ih =>
      obtain ⟨l, v⟩ := p
      simp only [labeledIds, labelsOf, List.map]
      exact congrArg (l :: ·) (ih (base + 1))

theorem map_snd_labeledIds {β : Type} (base : Nat) (s : List (Label × β)) :
    (labeledIds base s).map Prod.snd = List.range' base s.length := by
  induction s generalizing base with
  | nil => rfl
  | cons p rest ih =>
      obtain ⟨l, v⟩ := p
      simp only [labeledIds, List.map, List.length, List.range'_succ]
      exact congrArg (base :: ·) (ih (base + 1))

theorem length_labeledIds {β : Type} (base : Nat) (s : List (Label × β)) :
    (labeledIds base s).length = s.length := by
  induction s generalizing base with
  | nil => rfl
  | cons p rest ih =>
      obtain ⟨l, v⟩ := p
      simp only [labeledIds, List.length]
      exact congrArg (· + 1) (ih (base + 1))

theorem labelsOf_resolveRowsAux (ps : VarParams) (rows : List (Label × Row))
    (r : List (Label × Rat × Rat × Rat)) (h : resolveRowsAux ps rows = .ok r) :
    labelsOf r = labelsOf rows := by
  induction rows generalizing r with
  | nil =>
      simp only [resolveRowsAux] at h
      cases h
      rfl
  | cons p rest ih =>
      obtain ⟨l, row⟩ := p
      simp only [resolveRowsAux] at h
      cases hv : resolveRow ps l row with
      | error e => rw [hv] at h; cases h
      | ok v =>
          cases ht : resolveRowsAux ps rest with
          | error e => rw [hv, ht] at h; cases h
          | ok t =>
              rw [hv, ht] at h
              cases h
              simp only [labelsOf, List.map]
              exact congrArg (l :: ·) (ih t ht)

theorem labelsOf_resolveRows (ps : VarParams) (rows : List (Label × Row))
    (r : List (Label × Rat × Rat × Rat)) (h : resolveRows ps rows = .ok r) :
    labelsOf r = labelsOf rows := by
  rw [resolveRows] at h
  cases hc : checkParams (labelsOf rows) ps with
  | error e => rw [hc] at h; cases h
  | ok u => rw [hc] at h; exact labelsOf_resolveRowsAux ps rows r h

/-- C1: for every indexed container with unique labels, a successful add_vars
call returns a series over exactly the source's labels in source order, whose
handles are the consecutively numbered fresh variable ids: one new handle per
label, none repeated, and none equal to a variable that already existed in the
model. -/
theorem add_vars_aligned_fresh (interactive : Bool) (m : GRBModel) (src : Frame)
    (ps : VarParams) (formatters : List (String × (String → String)))
    (levelNames : List String) (out : List (Label × Nat))
    (hwf : ∀ v ∈ m.vars, v.id < m.vars.length)
    (hok : (add_vars interactive m src ps formatters levelNames).snd = .ok out) :
    labelsOf out = labelsOf src.rows ∧
    out.map Prod.snd = List.range' m.vars.length src.rows.length ∧
    (out.map Prod.snd).Nodup ∧
    ∀ hdl ∈ out.map Prod.snd, ∀ v ∈ m.vars, v.id ≠ hdl := by
  unfold add_vars at hok
  by_cases hd : hasDup (labelsOf src.rows)
  · rw [if_pos hd] at hok
    cases hok
  · rw [if_neg hd] at hok
    cases hres : resolveRows ps src.rows with
    | error e => rw [hres] at hok; cases hok
    | ok resolved =>
        rw [hres] at hok
        simp only at hok
        cases hok
        have hlab := labelsOf_resolveRows ps src.rows resolved hres
        have hlen : resolved.length = src.rows.length := by
          have := congrArg List.length hlab
          simpa [labelsOf] using this
        refine ⟨by rw [labelsOf_labeledIds, hlab], ?_, ?_, ?_⟩
        · rw [map_snd_labeledIds, hlen]
        · rw [map_snd_labeledIds, hlen]
          exact List.nodup_range' _ _
        · intro hdl hmem v hv
          rw [map_snd_labeledIds, hlen] at hmem
          have hge : m.vars.length ≤ hdl := by
            have := List.mem_range'.mp hmem
            omega
          have := hwf v hv
          omega

/-- Closed instance of C1: a two-label frame on an empty model. -/
theorem add_vars_aligned_fresh_instance :
    labelsOf (labeledIds 0 [(Label.scalar "a", (0 : Rat), (1 : Rat), (0 : Rat)),
      (Label.scalar "b", 0, 1, 0)]) =
        labelsOf [(Label.scalar "a", ([] : Row)), (Label.scalar "b", ([] : Row))] := by
  have h := add_vars_aligned_fresh false
    { vars := [], constrs := [], committedVars := 0, committedConstrs := 0, attrChanges := [] }
    { rows := [(Label.scalar "a", []), (Label.scalar "b", [])] }
    { lb := .const 0, ub := .const 1, obj := .const 0, vtype := .continuous, name := none }
    [] []
    (labeledIds 0 [(Label.scalar "a", ((0 : Rat), (1 : Rat), (0 : Rat))),
      (Label.scalar "b", ((0 : Rat), (1 : Rat), (0 : Rat)))])
    (by intro v hv; cases hv)
    (by rfl)
  exact h.1

theorem formatPart_nil (level part : String) : formatPart [] level part = part := by
  rfl

theorem formatParts_nil (lvls parts : List String) :
    formatParts [] lvls parts = parts := by
  induction parts generalizing lvls with
  | nil => cases lvls <;> rfl
  | cons p ps ih =>
      cases lvls with
      | nil => simp only [formatParts]; exact congrArg (p :: ·) (ih [])
      | cons n ns =>
          simp only [formatParts, formatPart_nil]
          exact congrArg (p :: ·) (ih ns)

theorem names_createVars (base : Nat) (vtype : VType) (nm : Option String)
    (formatters : List (String × (String → String))) (levelNames : List String)
    (rows : List (Label × Rat × Rat × Rat)) :
    (createVars base vtype nm formatters levelNames rows).map VarInfo.name =
      (labelsOf rows).map (fun l => nm.map (fun b => format_name b l formatters levelNames)) := by
  induction rows generalizing base with
  | nil => rfl
  | cons p rest ih =>
      obtain ⟨l, lb, ub, obj⟩ := p
      simp only [createVars, labelsOf, List.map]
      exact congrArg (_ :: ·) (ih (base + 1))

theorem length_createVars (base : Nat) (vtype : VType) (nm : Option String)
    (formatters : List (String × (String → String))) (levelNames : List String)
    (rows : List (Label × Rat × Rat × Rat)) :
    (createVars base vtype nm formatters levelNames rows).length = rows.length := by
  induction rows generalizing base with
  | nil => rfl
  | cons p rest ih =>
      obtain ⟨l, lb, ub, obj⟩ := p
      simp only [createVars, List.length]
      exact congrArg (· + 1) (ih (base + 1))

theorem add_vars_ok_elim (interactive : Bool) (m : GRBModel) (src : Frame)
    (ps : VarParams) (formatters : List (String × (String → String)))
    (levelNames : List String) (out : List (Label × Nat))
    (hok : (add_vars interactive m src ps formatters levelNames).snd = .ok out) :
    ∃ resolved, hasDup (labelsOf src.rows) = false ∧
      resolveRows ps src.rows = .ok resolved ∧
      out = labeledIds m.vars.length resolved ∧
      (add_vars interactive m src ps formatters levelNames).fst.vars =
        m.vars ++ createVars m.vars.length ps.vtype ps.name formatters levelNames resolved ∧
      (add_vars interactive m src ps formatters levelNames).fst.constrs = m.constrs ∧
      (add_vars interactive m src ps formatters levelNames).fst.attrChanges =
        m.attrChanges ∧
      (add_vars interactive m src ps formatters levelNames).fst.committedVars =
        (if interactive then m.vars.length + resolved.length else m.committedVars) := by
  unfold add_vars at hok ⊢
  by_cases hd : hasDup (labelsOf src.rows)
  · rw [if_pos hd] at hok
    cases hok
  · rw [if_neg hd] at hok
    rw [if_neg hd]
    cases hres : resolveRows ps src.rows with
    | error e => rw [hres] at hok; cases hok
    | ok resolved =>
        rw [hres] at hok
        simp only at hok
        cases hok
        refine ⟨resolved, by simpa using hd, rfl, rfl, ?_⟩
        simp only
        cases interactive with
        | false => exact ⟨rfl, rfl, rfl, rfl⟩
        | true =>
            refine ⟨rfl, rfl, rfl, ?_⟩
            simp only [GRBModel.commit, List.length_append, length_createVars, if_true]

theorem newVarNames_add_vars (interactive : Bool) (m : GRBModel) (src : Frame)
    (ps : VarParams) (formatters : List (String × (String → String)))
    (levelNames : List String) (out : List (Label × Nat))
    (hok : (add_vars interactive m src ps formatters levelNames).snd = .ok out) :
    newVarNames m.vars.length (add_vars interactive m src ps formatters levelNames).fst =
      (labelsOf src.rows).map
        (fun l => ps.name.map (fun b => format_name b l formatters levelNames)) := by
  obtain ⟨resolved, _, hres, _, hvars, _, _, _⟩ :=
    add_vars_ok_elim interactive m src ps formatters levelNames out hok
  rw [newVarNames, hvars, List.drop_left, names_createVars,
    labelsOf_resolveRows ps src.rows resolved hres]

/-- C6: the default name formatter renders a scalar label as base[label] and a
tuple label as the comma-joined parts in brackets, with no spaces; and the
names a bulk call assigns are a pure function of the base name, the labels and
the formatters alone, so two calls with identical naming inputs produce
identical name strings regardless of the model or the interactive flag. -/
theorem format_name_bracketed_pure :
    (∀ base s lvls, format_name base (.scalar s) [] lvls = base ++ "[" ++ s ++ "]") ∧
    (∀ base parts lvls, format_name base (.tuple parts) [] lvls =
      base ++ "[" ++ String.intercalate "," parts ++ "]") ∧
    (∀ i1 i2 m1 m2 src ps fmts lvls out1 out2,
      (add_vars i1 m1 src ps fmts lvls).snd = .ok out1 →
      (add_vars i2 m2 src ps fmts lvls).snd = .ok out2 →
      newVarNames m1.vars.length (add_vars i1 m1 src ps fmts lvls).fst =
        newVarNames m2.vars.length (add_vars i2 m2 src ps fmts lvls).fst) := by
  refine ⟨?_, ?_, ?_⟩
  · intro base s lvls
    rw [format_name, formatPart_nil]
  · intro base parts lvls
    rw [format_name, formatParts_nil]
  · intro i1 i2 m1 m2 src ps fmts lvls out1 out2 h1 h2
    rw [newVarNames_add_vars i1 m1 src ps fmts lvls out1 h1,
      newVarNames_add_vars i2 m2 src ps fmts lvls out2 h2]

/-- Closed instance of C6: concrete scalar and tuple names, and two calls on
different models in different modes assigning the same names. -/
theorem format_name_bracketed_pure_witness :
    format_name "x" (.scalar "3") [] [] = "x[3]" ∧
    format_name "flow" (.tuple ["1", "0"]) [] [] = "flow[1,0]" ∧
    newVarNames emptyModel.vars.length
        (add_vars false emptyModel { rows := [(Label.scalar "a", [])] }
          { lb := .const 0, ub := .const 1, obj := .const 0, vtype := .continuous,
            name := some "x" } [] []).fst =
      newVarNames oneVarModel.vars.length
        (add_vars true oneVarModel { rows := [(Label.scalar "a", [])] }
          { lb := .const 0, ub := .const 1, obj := .const 0, vtype := .continuous,
            name := some "x" } [] []).fst :=
  ⟨(format_name_bracketed_pure.1 "x" "3" []).trans (by rfl),
    (format_name_bracketed_pure.2.1 "flow" ["1", "0"] []).trans (by rfl),
    format_name_bracketed_pure.2.2 false true emptyModel oneVarModel
      { rows := [(Label.scalar "a", [])] }
      { lb := .const 0, ub := .const 1, obj := .const 0, vtype := .continuous,
        name := some "x" } [] []
      (labeledIds 0 [(Label.scalar "a", ((0 : Rat), (1 : Rat), (0 : Rat)))])
      (labeledIds 1 [(Label.scalar "a", ((0 : Rat), (1 : Rat), (0 : Rat)))])
      (by rfl) (by rfl)⟩

theorem hasDup_eq_false_iff (ls : List Label) : hasDup ls = false ↔ ls.Nodup := by
  induction ls with
  | nil => simp [hasDup]
  | cons l rest ih => simp [hasDup, ih, List.nodup_cons]

theorem setDiff_eq_nil_of_subset (a b : List Label) (h : ∀ l ∈ a, l ∈ b) :
    setDiff a b = [] := by
  rw [setDiff, List.filter_eq_nil_iff]
  intro l hl
  simp [h l hl]

theorem length_joinSides (lhs rhs : List (Label × Option LinExpr)) :
    (joinSides lhs rhs).length = lhs.length := by
  rw [joinSides, List.length_map]

theorem labelsOf_joinSides (lhs rhs : List (Label × Option LinExpr)) :
    labelsOf (joinSides lhs rhs) = labelsOf lhs := by
  rw [joinSides, labelsOf, labelsOf, List.map_map]
  rfl

theorem lookupLabel_join_isSome (rhs : List (Label × Option LinExpr)) (l : Label)
    (hmem : l ∈ labelsOf rhs) (hs : ∀ p ∈ rhs, p.snd.isSome) :
    ((lookupLabel rhs l).join).isSome := by
  induction rhs with
  | nil => cases hmem
  | cons q rt ih =>
      obtain ⟨l0, b⟩ := q
      by_cases he : l0 = l
      · subst he
        rw [lookupLabel, List.find?_cons_of_pos _ (by simp)]
        simpa using hs (l0, b) (List.mem_cons_self _ _)
      · have hmem2 : l ∈ labelsOf rt := by
          simp only [labelsOf, List.map_cons] at hmem
          rcases List.mem_cons.mp hmem with h | h
          · exact absurd h.symm he
          · exact h
        rw [lookupLabel, List.find?_cons_of_neg _ (by simpa using he)]
        simpa [lookupLabel] using ih hmem2 (fun p hp => hs p (List.mem_cons_of_mem _ hp))

theorem anyMissing_joinSides_eq_false (lhs rhs : List (Label × Option LinExpr))
    (hset : ∀ l ∈ labelsOf lhs, l ∈ labelsOf rhs)
    (hl : ∀ p ∈ lhs, p.snd.isSome) (hr : ∀ p ∈ rhs, p.snd.isSome) :
    anyMissing (joinSides lhs rhs) = false := by
  rw [anyMissing, List.any_eq_false]
  intro t ht
  rw [joinSides, List.mem_map] at ht
  obtain ⟨p, hp, rfl⟩ := ht
  have h1 := hl p hp
  have h2 := lookupLabel_join_isSome rhs p.fst
    (hset p.fst (List.mem_map_of_mem Prod.fst hp)) hr
  obtain ⟨x, hx⟩ := Option.isSome_iff_exists.mp h1
  obtain ⟨y, hy⟩ := Option.isSome_iff_exists.mp h2
  have hy2 : lookupLabel rhs p.1 = some (some y) := by
    cases hlk : lookupLabel rhs p.1 with
    | none => rw [hlk] at hy; cases hy
    | some o =>
        rw [hlk] at hy
        cases o with
        | none => cases hy
        | some z => cases hy; rfl
  simp [hx, hy2]

theorem length_createConstrs (base : Nat) (sense : Sense) (nm : Option String)
    (formatters : List (String × (String → String))) (levelNames : List String)
    (rows : List (Label × LinExpr × LinExpr)) :
    (createConstrs base sense nm formatters levelNames rows).length = rows.length := by
  induction rows generalizing base with
  | nil => rfl
  | cons p rest ih =>
      obtain ⟨l, a, b⟩ := p
      simp only [createConstrs, List.length]
      exact congrArg (· + 1) (ih (base + 1))

theorem sense_createConstrs (base : Nat) (sense : Sense) (nm : Option String)
    (formatters : List (String × (String → String))) (levelNames : List String)
    (rows : List (Label × LinExpr × LinExpr)) :
    ∀ c ∈ createConstrs base sense nm formatters levelNames rows, c.sense = sense := by
  induction rows generalizing base with
  | nil => intro c hc; cases hc
  | cons p rest ih =>
      obtain ⟨l, a, b⟩ := p
      intro c hc
      rcases List.mem_cons.mp hc with h | h
      · rw [h]
      · exact ih (base + 1) c h

theorem defaultNames_createConstrs (base : Nat) (sense : Sense)
    (formatters : List (String × (String → String))) (levelNames : List String)
    (rows : List (Label × LinExpr × LinExpr)) :
    (∀ c ∈ createConstrs base sense none formatters levelNames rows, c.name = none) ∧
    (createConstrs base sense none formatters levelNames rows).map effectiveConstrName =
      (List.range' base rows.length).map (fun i => "R" ++ Nat.repr i) := by
  induction rows generalizing base with
  | nil => exact ⟨fun c hc => absurd hc (List.not_mem_nil c), rfl⟩
  | cons p rest ih =>
      obtain ⟨l, a, b⟩ := p
      obtain ⟨ihn, ihm⟩ := ih (base + 1)
      constructor
      · intro c hc
        rcases List.mem_cons.mp hc with h | h
        · subst h; rfl
        · exact ihn c h
      · simp only [createConstrs, List.map, List.length, List.range'_succ]
        exact congrArg (_ :: ·) ihm

theorem add_constrs_ok_elim (interactive : Bool) (m : GRBModel)
    (lhs : List (Label × Option LinExpr)) (sense : Sense)
    (rhs : List (Label × Option LinExpr)) (nm : Option String)
    (formatters : List (String × (String → String))) (levelNames : List String)
    (out : List (Label × Nat))
    (hok : (add_constrs interactive m lhs sense rhs nm formatters levelNames).snd = .ok out) :
    hasDup (labelsOf lhs) = false ∧ hasDup (labelsOf rhs) = false ∧
    anyMissing (joinSides lhs rhs) = false ∧
    out = labeledIds m.constrs.length (joinSides lhs rhs) ∧
    (add_constrs interactive m lhs sense rhs nm formatters levelNames).fst.constrs =
      m.constrs ++ createConstrs m.constrs.length sense nm formatters levelNames
        (presentRows (joinSides lhs rhs)) ∧
    (add_constrs interactive m lhs sense rhs nm formatters levelNames).fst.vars = m.vars := by
  unfold add_constrs at hok ⊢
  by_cases hd : (hasDup (labelsOf lhs) || hasDup (labelsOf rhs)) = true
  · rw [if_pos hd] at hok
    cases hok
  · rw [if_neg hd] at hok
    rw [if_neg hd]
    rw [Bool.or_eq_true_iff] at hd
    push_neg at hd
    by_cases hoff : (setDiff (labelsOf lhs) (labelsOf rhs) ++
        setDiff (labelsOf rhs) (labelsOf lhs)).isEmpty
    · rw [if_pos hoff] at hok
      rw [if_pos hoff]
      by_cases hm : anyMissing (joinSides lhs rhs) = true
      · rw [if_pos hm] at hok
        cases hok
      · rw [if_neg hm] at hok
        rw [if_neg hm]
        simp only at hok
        cases hok
        refine ⟨by simpa using hd.1, by simpa using hd.2,
          by simpa using hm, rfl, ?_, ?_⟩
        · cases interactive <;> rfl
        · cases interactive <;> rfl
    · rw [if_neg hoff] at hok
      cases hok

theorem lookupLabel_cons_of_ne {β : Type} (l0 : Label) (b : β)
    (rt : List (Label × β)) (l : Label) (hne : l0 ≠ l) :
    lookupLabel ((l0, b) :: rt) l = lookupLabel rt l := by
  rw [lookupLabel, List.find?_cons_of_neg _ (by simpa using hne), lookupLabel]

theorem joinSides_eq_zipWith (lhs rhs : List (Label × Option LinExpr))
    (hal : labelsOf lhs = labelsOf rhs) (hnd : (labelsOf lhs).Nodup) :
    joinSides lhs rhs = List.zipWith (fun a b => (a.fst, a.snd, b.snd)) lhs rhs := by
  induction lhs generalizing rhs with
  | nil =>
      cases rhs with
      | nil => rfl
      | cons q rt => cases hal
  | cons p lt ih =>
      cases rhs with
      | nil => cases hal
      | cons q rt =>
          obtain ⟨l, a⟩ := p
          obtain ⟨l2, b⟩ := q
          simp only [labelsOf, List.map_cons] at hal hnd
          have hll : l = l2 := (List.cons.injEq _ _ _ _ ▸ hal).1
          have hlt : List.map Prod.fst lt = List.map Prod.fst rt :=
            (List.cons.injEq _ _ _ _ ▸ hal).2
          subst hll
          obtain ⟨hnotmem, hndt⟩ := List.nodup_cons.mp hnd
          simp only [joinSides, List.map_cons, List.zipWith_cons_cons]
          refine congrArg₂ List.cons ?_ ?_
          · rw [lookupLabel, List.find?_cons_of_pos _ (by simp)]
            rfl
          · have hstep : ∀ p2 ∈ lt,
                (p2.fst, p2.snd, (lookupLabel ((l, b) :: rt) p2.fst).join) =
                  (p2.fst, p2.snd, (lookupLabel rt p2.fst).join) := by
              intro p2 hp2
              have : l ≠ p2.fst := by
                intro he
                exact hnotmem (he ▸ List.mem_map_of_mem Prod.fst hp2)
              rw [lookupLabel_cons_of_ne l b rt p2.fst this]
            calc List.map (fun p2 => (p2.fst, p2.snd, (lookupLabel ((l, b) :: rt) p2.fst).join)) lt
                = List.map (fun p2 => (p2.fst, p2.snd, (lookupLabel rt p2.fst).join)) lt :=
                  List.map_congr_left hstep
              _ = List.zipWith (fun a2 b2 => (a2.fst, a2.snd, b2.snd)) lt rt :=
                  ih rt hlt hndt

theorem anyMissing_of_nan (lhs rhs : List (Label × Option LinExpr))
    (hal : labelsOf lhs = labelsOf rhs) (hnd : (labelsOf lhs).Nodup)
    (hnan : (∃ p ∈ lhs, p.snd = none) ∨ (∃ p ∈ rhs, p.snd = none)) :
    anyMissing (joinSides lhs rhs) = true := by
  rw [joinSides_eq_zipWith lhs rhs hal hnd]
  clear hnd
  induction lhs generalizing rhs with
  | nil =>
      cases rhs with
      | nil =>
          rcases hnan with ⟨p, hp, _⟩ | ⟨q, hq, _⟩
          · cases hp
          · cases hq
      | cons q rt => cases hal
  | cons p lt ih =>
      cases rhs with
      | nil => cases hal
      | cons q rt =>
          simp only [labelsOf, List.map_cons] at hal
          have hlt : List.map Prod.fst lt = List.map Prod.fst rt :=
            (List.cons.injEq _ _ _ _ ▸ hal).2
          simp only [List.zipWith_cons_cons, anyMissing, List.any_cons] at *
          rcases hnan with ⟨p2, hp2, hp2n⟩ | ⟨q2, hq2, hq2n⟩
          · rcases List.mem_cons.mp hp2 with h | h
            · subst h
              rw [hp2n]
              simp
            · rw [ih rt hlt (Or.inl ⟨p2, h, hp2n⟩)]
              simp
          · rcases List.mem_cons.mp hq2 with h | h
            · subst h
              rw [hq2n]
              simp
            · rw [ih rt hlt (Or.inr ⟨q2, h, hq2n⟩)]
              simp

theorem dupsOf_ne_nil (ls : List Label) (h : hasDup ls = true) : dupsOf ls ≠ [] := by
  induction ls with
  | nil => cases h
  | cons l rest ih =>
      rw [hasDup, Bool.or_eq_true] at h
      intro hnil
      rcases h with hc | hd
      · have hmem : l ∈ rest := by simpa using hc
        have h2 : 1 < (l :: rest).count l := by
          rw [List.count_cons_self]
          have := List.count_pos_iff.mpr hmem
          omega
        have hfil := (List.filter_eq_nil_iff.mp hnil) l (List.mem_cons_self _ _)
        simp only [decide_eq_true_eq] at hfil
        exact hfil h2
      · have h3 := ih hd
        obtain ⟨x, hx⟩ := List.exists_mem_of_ne_nil (dupsOf rest) h3
        rw [dupsOf, List.mem_filter] at hx
        obtain ⟨hxm, hxc⟩ := hx
        have hxc2 : 1 < rest.count x := of_decide_eq_true hxc
        have h2 : 1 < (l :: rest).count x := by
          have hle : rest.count x ≤ (l :: rest).count x :=
            (List.sublist_cons_self l rest).count_le x
          omega
        have hfil := (List.filter_eq_nil_iff.mp hnil) x (List.mem_cons_of_mem _ hxm)
        simp only [decide_eq_true_eq] at hfil
        exact hfil h2

theorem add_constrs_snd_of_valid (interactive : Bool) (m : GRBModel)
    (lhs : List (Label × Option LinExpr)) (sense : Sense)
    (rhs : List (Label × Option LinExpr)) (nm : Option String)
    (formatters : List (String × (String → String))) (levelNames : List String)
    (hd1 : hasDup (labelsOf lhs) = false) (hd2 : hasDup (labelsOf rhs) = false)
    (hsub1 : setDiff (labelsOf lhs) (labelsOf rhs) = [])
    (hsub2 : setDiff (labelsOf rhs) (labelsOf lhs) = [])
    (hmiss : anyMissing (joinSides lhs rhs) = false) :
    (add_constrs interactive m lhs sense rhs nm formatters levelNames).snd =
      .ok (labeledIds m.constrs.length (joinSides lhs rhs)) := by
  unfold add_constrs
  rw [hd1, hd2, hsub1, hsub2]
  simp only [Bool.or_self, Bool.false_eq_true, if_false, List.append_nil,
    List.isEmpty_nil, if_true, hmiss]

theorem mem_setDiff_iff (a b : List Label) (l : Label) :
    l ∈ setDiff a b ↔ l ∈ a ∧ l ∉ b := by
  rw [setDiff, List.mem_filter]
  simp

/-- C2: for every pair of aligned containers over one shared label set (unique
labels, all values present) and every relational sense, add_constrs succeeds
and returns exactly one constraint handle per shared label -- the output
carries the shared labels in order with pairwise distinct handles, and the
call creates exactly one constraint per label -- and every created constraint
records exactly the requested sense. -/
theorem add_constrs_one_per_label_sense (interactive : Bool) (m : GRBModel)
    (lhs rhs : List (Label × Option LinExpr)) (sense : Sense) (nm : Option String)
    (formatters : List (String × (String → String))) (levelNames : List String)
    (hal : labelsOf lhs = labelsOf rhs) (hnd : (labelsOf lhs).Nodup)
    (hl : ∀ p ∈ lhs, p.snd.isSome) (hr : ∀ p ∈ rhs, p.snd.isSome) :
    ∃ out, (add_constrs interactive m lhs sense rhs nm formatters levelNames).snd =
        .ok out ∧
      labelsOf out = labelsOf lhs ∧
      out.length = lhs.length ∧
      (out.map Prod.snd).Nodup ∧
      (newConstrsOf m.constrs.length
        (add_constrs interactive m lhs sense rhs nm formatters levelNames).fst).length =
          lhs.length ∧
      ∀ c ∈ newConstrsOf m.constrs.length
          (add_constrs interactive m lhs sense rhs nm formatters levelNames).fst,
        c.sense = sense := by
  have hndr : (labelsOf rhs).Nodup := hal ▸ hnd
  have hd1 := (hasDup_eq_false_iff (labelsOf lhs)).mpr hnd
  have hd2 := (hasDup_eq_false_iff (labelsOf rhs)).mpr hndr
  have hsub1 : setDiff (labelsOf lhs) (labelsOf rhs) = [] :=
    setDiff_eq_nil_of_subset _ _ (fun l h => by rw [← hal]; exact h)
  have hsub2 : setDiff (labelsOf rhs) (labelsOf lhs) = [] :=
    setDiff_eq_nil_of_subset _ _ (fun l h => by rw [hal]; exact h)
  have hmiss := anyMissing_joinSides_eq_false lhs rhs
    (fun l h => by rw [← hal]; exact h) hl hr
  have hok := add_constrs_snd_of_valid interactive m lhs sense rhs nm formatters
    levelNames hd1 hd2 hsub1 hsub2 hmiss
  obtain ⟨_, _, _, _, hconstrs, _⟩ :=
    add_constrs_ok_elim interactive m lhs sense rhs nm formatters levelNames _ hok
  refine ⟨_, hok, ?_, ?_, ?_, ?_, ?_⟩
  · rw [labelsOf_labeledIds, labelsOf_joinSides]
  · rw [length_labeledIds, length_joinSides]
  · rw [map_snd_labeledIds]
    exact List.nodup_range' _ _
  · rw [newConstrsOf, hconstrs, List.drop_left, length_createConstrs, presentRows,
      List.length_map, length_joinSides]
  · intro c hc
    rw [newConstrsOf, hconstrs, List.drop_left] at hc
    exact sense_createConstrs _ _ _ _ _ _ c hc

/-- Closed instance of C2: a single aligned label on the one-variable model. -/
theorem add_constrs_one_per_label_sense_witness :
    ∃ out, (add_constrs false oneVarModel sampleLhs Sense.le sampleRhs none [] []).snd =
        .ok out ∧
      labelsOf out = labelsOf sampleLhs ∧
      ∀ c ∈ newConstrsOf oneVarModel.constrs.length
          (add_constrs false oneVarModel sampleLhs Sense.le sampleRhs none [] []).fst,
        c.sense = Sense.le := by
  obtain ⟨out, h1, h2, _, _, _, h6⟩ :=
    add_constrs_one_per_label_sense false oneVarModel sampleLhs sampleRhs Sense.le none
      [] [] (by rfl) (by decide) (by decide) (by decide)
  exact ⟨out, h1, h2, h6⟩

/-- C4: over aligned inputs with unique labels, any missing (NaN) value on
either side makes add_constrs fail with the missing-data error, and the model
comes back unchanged: the failure happens before any constraint is created. -/
theorem add_constrs_missing_data_rejected (interactive : Bool) (m : GRBModel)
    (lhs rhs : List (Label × Option LinExpr)) (sense : Sense) (nm : Option String)
    (formatters : List (String × (String → String))) (levelNames : List String)
    (hal : labelsOf lhs = labelsOf rhs) (hnd : (labelsOf lhs).Nodup)
    (hnan : (∃ p ∈ lhs, p.snd = none) ∨ (∃ p ∈ rhs, p.snd = none)) :
    add_constrs interactive m lhs sense rhs nm formatters levelNames =
      (m, .error .missingDataError) := by
  have hndr : (labelsOf rhs).Nodup := hal ▸ hnd
  have hd1 := (hasDup_eq_false_iff (labelsOf lhs)).mpr hnd
  have hd2 := (hasDup_eq_false_iff (labelsOf rhs)).mpr hndr
  have hsub1 : setDiff (labelsOf lhs) (labelsOf rhs) = [] :=
    setDiff_eq_nil_of_subset _ _ (fun l h => by rw [← hal]; exact h)
  have hsub2 : setDiff (labelsOf rhs) (labelsOf lhs) = [] :=
    setDiff_eq_nil_of_subset _ _ (fun l h => by rw [hal]; exact h)
  have hmiss := anyMissing_of_nan lhs rhs hal hnd hnan
  unfold add_constrs
  rw [hd1, hd2, hsub1, hsub2]
  simp only [Bool.or_self, Bool.false_eq_true, if_false, List.append_nil,
    List.isEmpty_nil, if_true, hmiss]

/-- Closed instance of C4: a NaN left-hand entry is rejected with no mutation. -/
theorem add_constrs_missing_data_rejected_witness :
    add_constrs false oneVarModel sampleLhsNaN Sense.le sampleRhs none [] [] =
      (oneVarModel, .error .missingDataError) :=
  add_constrs_missing_data_rejected false oneVarModel sampleLhsNaN sampleRhs Sense.le
    none [] [] (by rfl) (by decide)
    (Or.inl ⟨(Label.scalar "a", none), by decide, rfl⟩)

theorem checkParam_series_misaligned (srcLabels : List Label)
    (s : List (Label × Rat)) (l0 : Label)
    (hsdup : hasDup (labelsOf s) = false)
    (hdiff : (l0 ∈ srcLabels ∧ l0 ∉ labelsOf s) ∨
      (l0 ∈ labelsOf s ∧ l0 ∉ srcLabels)) :
    ∃ off, checkParam srcLabels (.series s) = .error (.alignmentError off) ∧
      off ≠ [] ∧ l0 ∈ off := by
  have hoff : l0 ∈ setDiff srcLabels (labelsOf s) ++
      setDiff (labelsOf s) srcLabels := by
    rcases hdiff with ⟨h1, h2⟩ | ⟨h1, h2⟩
    · exact List.mem_append_left _ ((mem_setDiff_iff _ _ _).mpr ⟨h1, h2⟩)
    · exact List.mem_append_right _ ((mem_setDiff_iff _ _ _).mpr ⟨h1, h2⟩)
  have hne : (setDiff srcLabels (labelsOf s) ++
      setDiff (labelsOf s) srcLabels).isEmpty = false := by
    cases hcase : setDiff srcLabels (labelsOf s) ++ setDiff (labelsOf s) srcLabels with
    | nil => rw [hcase] at hoff; cases hoff
    | cons x xs => simp
  refine ⟨setDiff srcLabels (labelsOf s) ++ setDiff (labelsOf s) srcLabels,
    ?_, ?_, hoff⟩
  · simp only [checkParam, hsdup, Bool.false_eq_true, if_false, hne]
  · intro hnil
    rw [hnil] at hoff
    cases hoff

theorem add_vars_param_error (interactive : Bool) (m : GRBModel) (src : Frame)
    (ps : VarParams) (formatters : List (String × (String → String)))
    (levelNames : List String) (e : GpError)
    (hd : hasDup (labelsOf src.rows) = false)
    (hchk : checkParams (labelsOf src.rows) ps = .error e) :
    add_vars interactive m src ps formatters levelNames = (m, .error e) := by
  have hres : resolveRows ps src.rows = .error e := by
    rw [resolveRows, hchk]
  unfold add_vars
  rw [hd, hres]
  simp

/-- C5: bulk creation never partially mutates on misalignment.  For add_vars:
a source with duplicate labels fails with an alignment error listing the
duplicated labels, and a container-valued parameter (here the upper-bound
series) whose label set differs from the source's by at least one label fails
with an alignment error naming that label.  For add_constrs: duplicate labels
on either side fail with an alignment error listing them, and two sides whose
label sets differ by at least one label fail with an alignment error naming
that label.  In every case the returned model is exactly the input model, so
zero new handles are created. -/
theorem alignment_errors_no_partial_mutation :
    (∀ interactive m src ps formatters levelNames,
      hasDup (labelsOf src.rows) = true →
      add_vars interactive m src ps formatters levelNames =
          (m, .error (.alignmentError (dupsOf (labelsOf src.rows)))) ∧
        dupsOf (labelsOf src.rows) ≠ []) ∧
    (∀ interactive m src ps formatters levelNames s l0,
      hasDup (labelsOf src.rows) = false →
      checkParam (labelsOf src.rows) ps.lb = .ok () →
      ps.ub = .series s →
      hasDup (labelsOf s) = false →
      ((l0 ∈ labelsOf src.rows ∧ l0 ∉ labelsOf s) ∨
        (l0 ∈ labelsOf s ∧ l0 ∉ labelsOf src.rows)) →
      ∃ off, add_vars interactive m src ps formatters levelNames =
          (m, .error (.alignmentError off)) ∧ off ≠ [] ∧ l0 ∈ off) ∧
    (∀ interactive m lhs sense rhs nm formatters levelNames,
      hasDup (labelsOf lhs) = true ∨ hasDup (labelsOf rhs) = true →
      add_constrs interactive m lhs sense rhs nm formatters levelNames =
          (m, .error (.alignmentError
            (dupsOf (labelsOf lhs) ++ dupsOf (labelsOf rhs)))) ∧
        dupsOf (labelsOf lhs) ++ dupsOf (labelsOf rhs) ≠ []) ∧
    (∀ interactive m lhs sense rhs nm formatters levelNames l0,
      hasDup (labelsOf lhs) = false → hasDup (labelsOf rhs) = false →
      ((l0 ∈ labelsOf lhs ∧ l0 ∉ labelsOf rhs) ∨
        (l0 ∈ labelsOf rhs ∧ l0 ∉ labelsOf lhs)) →
      ∃ off, add_constrs interactive m lhs sense rhs nm formatters levelNames =
          (m, .error (.alignmentError off)) ∧ off ≠ [] ∧ l0 ∈ off) := by
  refine ⟨?_, ?_, ?_, ?_⟩
  · intro interactive m src ps formatters levelNames hd
    constructor
    · unfold add_vars
      rw [hd]
      simp
    · exact dupsOf_ne_nil _ hd
  · intro interactive m src ps formatters levelNames s l0 hd hlb hub hsdup hdiff
    obtain ⟨off, hco, hne, hl0⟩ :=
      checkParam_series_misaligned (labelsOf src.rows) s l0 hsdup hdiff
    have hchk : checkParams (labelsOf src.rows) ps =
        .error (.alignmentError off) := by
      simp only [checkParams, hlb, hub, hco]
    exact ⟨off,
      add_vars_param_error interactive m src ps formatters levelNames _ hd hchk,
      hne, hl0⟩
  · intro interactive m lhs sense rhs nm formatters levelNames hd
    have hdor : (hasDup (labelsOf lhs) || hasDup (labelsOf rhs)) = true := by
      rcases hd with h | h <;> simp [h]
    constructor
    · unfold add_constrs
      rw [if_pos hdor]
    · intro hnil
      obtain ⟨h1, h2⟩ := List.append_eq_nil.mp hnil
      rcases hd with h | h
      · exact dupsOf_ne_nil _ h h1
      · exact dupsOf_ne_nil _ h h2
  · intro interactive m lhs sense rhs nm formatters levelNames l0 hd1 hd2 hmem
    have hoff : l0 ∈ setDiff (labelsOf lhs) (labelsOf rhs) ++
        setDiff (labelsOf rhs) (labelsOf lhs) := by
      rcases hmem with ⟨h1, h2⟩ | ⟨h1, h2⟩
      · exact List.mem_append_left _ ((mem_setDiff_iff _ _ _).mpr ⟨h1, h2⟩)
      · exact List.mem_append_right _ ((mem_setDiff_iff _ _ _).mpr ⟨h1, h2⟩)
    refine ⟨setDiff (labelsOf lhs) (labelsOf rhs) ++
      setDiff (labelsOf rhs) (labelsOf lhs), ?_, ?_, hoff⟩
    · have hne : (setDiff (labelsOf lhs) (labelsOf rhs) ++
          setDiff (labelsOf rhs) (labelsOf lhs)).isEmpty = false := by
        cases hcase : setDiff (labelsOf lhs) (labelsOf rhs) ++
            setDiff (labelsOf rhs) (labelsOf lhs) with
        | nil => rw [hcase] at hoff; cases hoff
        | cons x xs => simp
      unfold add_constrs
      rw [hd1, hd2]
      simp only [Bool.or_self, Bool.false_eq_true, if_false, hne]
    · intro hnil
      rw [hnil] at hoff
      cases hoff

/-- Closed instance of C5: duplicate labels in add_vars, a misaligned
upper-bound container in add_vars, duplicate labels in add_constrs, and an
add_constrs pair whose label sets differ -- each rejected without mutation. -/
theorem alignment_errors_no_partial_mutation_witness :
    (add_vars false emptyModel
        { rows := [(Label.scalar "a", []), (Label.scalar "a", [])] } samplePs [] [] =
      (emptyModel,
        .error (.alignmentError (dupsOf (labelsOf
          ([(Label.scalar "a", ([] : Row)), (Label.scalar "a", [])])))))) ∧
    (∃ off, add_vars false emptyModel { rows := [(Label.scalar "a", [])] }
        samplePsMis [] [] = (emptyModel, .error (.alignmentError off)) ∧
      Label.scalar "a" ∈ off) ∧
    (add_constrs false emptyModel sampleLhsDup Sense.le sampleRhs none [] [] =
      (emptyModel, .error (.alignmentError
        (dupsOf (labelsOf sampleLhsDup) ++ dupsOf (labelsOf sampleRhs))))) ∧
    ∃ off, add_constrs false emptyModel sampleLhs Sense.le sampleRhsB none [] [] =
        (emptyModel, .error (.alignmentError off)) ∧ Label.scalar "a" ∈ off := by
  refine ⟨?_, ?_, ?_, ?_⟩
  · exact (alignment_errors_no_partial_mutation.1 false emptyModel
      { rows := [(Label.scalar "a", []), (Label.scalar "a", [])] } samplePs [] []
      (by decide)).1
  · obtain ⟨off, h1, _, h3⟩ := alignment_errors_no_partial_mutation.2.1 false
      emptyModel { rows := [(Label.scalar "a", [])] } samplePsMis [] []
      [(Label.scalar "b", (1 : Rat))] (Label.scalar "a")
      (by decide) (by rfl) (by rfl) (by decide) (Or.inl ⟨by decide, by decide⟩)
    exact ⟨off, h1, h3⟩
  · exact (alignment_errors_no_partial_mutation.2.2.1 false emptyModel sampleLhsDup
      Sense.le sampleRhs none [] [] (Or.inl (by decide))).1
  · obtain ⟨off, h1, _, h3⟩ := alignment_errors_no_partial_mutation.2.2.2 false
      emptyModel sampleLhs Sense.le sampleRhsB none [] [] (Label.scalar "a")
      (by decide) (by decide) (Or.inl ⟨by decide, by decide⟩)
    exact ⟨off, h1, h3⟩

/-- C7: when the name argument is absent, a successful bulk add_constrs call
assigns no explicit name to any created constraint, and each one's effective
name is the solver default R0, R1, ..., numbered by creation order. -/
theorem add_constrs_no_name_solver_default (interactive : Bool) (m : GRBModel)
    (lhs rhs : List (Label × Option LinExpr)) (sense : Sense)
    (formatters : List (String × (String → String))) (levelNames : List String)
    (out : List (Label × Nat))
    (hok : (add_constrs interactive m lhs sense rhs none formatters levelNames).snd =
      .ok out) :
    (∀ c ∈ newConstrsOf m.constrs.length
        (add_constrs interactive m lhs sense rhs none formatters levelNames).fst,
      c.name = none) ∧
    (newConstrsOf m.constrs.length
        (add_constrs interactive m lhs sense rhs none formatters levelNames).fst).map
      effectiveConstrName =
        (List.range' m.constrs.length out.length).map (fun i => "R" ++ Nat.repr i) := by
  obtain ⟨_, _, _, hout, hcs, _⟩ :=
    add_constrs_ok_elim interactive m lhs sense rhs none formatters levelNames out hok
  rw [newConstrsOf, hcs, List.drop_left]
  obtain ⟨hn, hm⟩ := defaultNames_createConstrs m.constrs.length sense formatters
    levelNames (presentRows (joinSides lhs rhs))
  refine ⟨hn, ?_⟩
  rw [hm]
  have hlen : out.length = (presentRows (joinSides lhs rhs)).length := by
    rw [hout, length_labeledIds, presentRows, List.length_map]
  rw [hlen]

/-- Closed instance of C7: one unnamed constraint on the one-variable model
receives the solver default name R0. -/
theorem add_constrs_no_name_solver_default_witness :
    (∀ c ∈ newConstrsOf oneVarModel.constrs.length
        (add_constrs false oneVarModel sampleLhs Sense.le sampleRhs none [] []).fst,
      c.name = none) ∧
    (newConstrsOf oneVarModel.constrs.length
        (add_constrs false oneVarModel sampleLhs Sense.le sampleRhs none [] []).fst).map
      effectiveConstrName =
        (List.range' 0 1).map (fun i => "R" ++ Nat.repr i) := by
  have h := add_constrs_no_name_solver_default false oneVarModel sampleLhs sampleRhs
    Sense.le [] [] (labeledIds 0 (joinSides sampleLhs sampleRhs)) (by rfl)
  exact ⟨h.1, h.2⟩

/-- C3: the formula front end parses a plus b at-most c into left side a plus
b, sense at-most, right side c; a formula with two relational operators is a
formula error; a formula with no relational operator is a formula error; a
referenced name that is not a column of the source frame is a formula error. -/
theorem parse_formula_contract :
    parse_formula ["a", "b", "c"] "a + b <= c" =
      .ok (FTerm.add (.col "a") (.col "b"), Sense.le, FTerm.col "c") ∧
    isFormulaError (parse_formula ["a", "b", "c"] "a <= b <= c") = true ∧
    isFormulaError (parse_formula ["a", "b", "c"] "a + b") = true ∧
    isFormulaError (parse_formula ["a", "b", "c"] "a + q <= c") = true :=
  ⟨by rfl, by rfl, by rfl, by rfl⟩

theorem foldl_linAdd_eq (e : LinExpr) (xs : List LinExpr) :
    xs.foldl linAdd e =
      LinExpr.mk (e.terms ++ (xs.map LinExpr.terms).flatten)
        (e.const + (xs.map LinExpr.const).sum) := by
  induction xs generalizing e with
  | nil =>
      obtain ⟨t, c⟩ := e
      simp
  | cons x xt ih =>
      simp only [List.foldl, List.map_cons, List.flatten_cons, List.sum_cons]
      rw [ih]
      simp [linAdd, add_assoc]

theorem find?_append_of_none {α : Type} (l1 l2 : List α) (p : α → Bool)
    (h : ∀ x ∈ l1, p x = false) : (l1 ++ l2).find? p = l2.find? p := by
  induction l1 with
  | nil => rfl
  | cons a t ih =>
      rw [List.cons_append,
        List.find?_cons_of_neg _ (by simp [h a (List.mem_cons_self _ _)])]
      exact ih (fun x hx => h x (List.mem_cons_of_mem _ hx))

theorem find?_createVars (base : Nat) (vtype : VType) (nm : Option String)
    (formatters : List (String × (String → String))) (levelNames : List String)
    (rows : List (Label × Rat × Rat × Rat)) (i : Nat) (hi : i < rows.length) :
    (createVars base vtype nm formatters levelNames rows).find?
        (fun v => v.id == base + i) =
      some (VarInfo.mk (base + i) (rows.get ⟨i, hi⟩).snd.1 (rows.get ⟨i, hi⟩).snd.2.1
        (rows.get ⟨i, hi⟩).snd.2.2 vtype
        (nm.map (fun b => format_name b (rows.get ⟨i, hi⟩).fst formatters levelNames))) := by
  induction rows generalizing base i with
  | nil => cases hi
  | cons p rest ih =>
      obtain ⟨l, lb, ub, obj⟩ := p
      cases i with
      | zero =>
          rw [createVars, List.find?_cons_of_pos _ (by simp)]
          rfl
      | succ j =>
          rw [createVars, List.find?_cons_of_neg _ (by simp only [beq_iff_eq]; omega)]
          have hj : j < rest.length := by
            simpa using Nat.lt_of_succ_lt_succ hi
          have := ih (base + 1) j hj
          rw [show base + (j + 1) = base + 1 + j by omega]
          simpa using this

theorem getAttrVar_ub_of_appended (m2 : GRBModel) (oldVars : List VarInfo)
    (vtype : VType) (nm : Option String)
    (formatters : List (String × (String → String))) (levelNames : List String)
    (resolved : List (Label × Rat × Rat × Rat)) (i : Nat) (hi : i < resolved.length)
    (hvars : m2.vars = oldVars ++ createVars oldVars.length vtype nm formatters
      levelNames resolved)
    (hwf : ∀ v ∈ oldVars, v.id < oldVars.length)
    (hclean : ∀ w ∈ m2.attrChanges, w.snd.fst < oldVars.length)
    (hcv : oldVars.length + resolved.length ≤ m2.committedVars) :
    getAttrVar m2 "UB" (oldVars.length + i) =
      .ok (.num (resolved.get ⟨i, hi⟩).snd.2.1) := by
  have hfind : m2.attrChanges.find?
      (fun c => c.fst == "UB" && c.snd.fst == oldVars.length + i) = none := by
    rw [List.find?_eq_none]
    intro w hw
    have := hclean w hw
    simp only [Bool.and_eq_true, beq_iff_eq, not_and]
    intro _
    omega
  have hskip : ∀ v ∈ oldVars, (fun v => v.id == oldVars.length + i) v = false := by
    intro v hv
    have := hwf v hv
    simp only [beq_eq_false_iff_ne, ne_eq]
    omega
  rw [getAttrVar, if_pos (by omega), hfind, hvars,
    find?_append_of_none _ _ _ hskip,
    find?_createVars oldVars.length vtype nm formatters levelNames resolved i hi]
  rfl

/-- C8: add_vars mutates the model only by adding variables -- the constraint
list is untouched; with interactive mode off the committed count stays as it
was, an attribute read on any fresh handle surfaces the solver's unavailable
error, and the read succeeds once the caller invokes the model's update
operation; with interactive mode on the bulk call commits its pending objects
itself and the read on every fresh handle succeeds immediately. -/
theorem add_vars_interactive_commit (interactive : Bool) (m : GRBModel) (src : Frame)
    (ps : VarParams) (formatters : List (String × (String → String)))
    (levelNames : List String) (out : List (Label × Nat))
    (hwf : ∀ v ∈ m.vars, v.id < m.vars.length)
    (hclean : ∀ w ∈ m.attrChanges, w.snd.fst < m.vars.length)
    (hcv : m.committedVars ≤ m.vars.length)
    (hok : (add_vars interactive m src ps formatters levelNames).snd = .ok out) :
    (add_vars interactive m src ps formatters levelNames).fst.constrs = m.constrs ∧
    (interactive = false →
      (add_vars interactive m src ps formatters levelNames).fst.committedVars =
        m.committedVars ∧
      (∀ hdl ∈ out.map Prod.snd,
        getAttrVar (add_vars interactive m src ps formatters levelNames).fst "UB" hdl =
          .error .attrUnavailable) ∧
      (∀ hdl ∈ out.map Prod.snd, ∃ q,
        getAttrVar ((add_vars interactive m src ps formatters levelNames).fst.commit)
          "UB" hdl = .ok (.num q))) ∧
    (interactive = true →
      ∀ hdl ∈ out.map Prod.snd, ∃ q,
        getAttrVar (add_vars interactive m src ps formatters levelNames).fst "UB" hdl =
          .ok (.num q)) := by
  obtain ⟨resolved, _, hres, hout, hvars, hconstrs, hac, hcommit⟩ :=
    add_vars_ok_elim interactive m src ps formatters levelNames out hok
  have hids : out.map Prod.snd = List.range' m.vars.length resolved.length := by
    rw [hout, map_snd_labeledIds]
  refine ⟨hconstrs, ?_, ?_⟩
  · intro hfalse
    subst hfalse
    rw [if_neg (by simp)] at hcommit
    refine ⟨hcommit, ?_, ?_⟩
    · intro hdl hmem
      rw [hids] at hmem
      obtain ⟨j, hj, heq⟩ := List.mem_range'.mp hmem
      rw [getAttrVar, if_neg (by rw [hcommit]; omega)]
    · intro hdl hmem
      rw [hids] at hmem
      obtain ⟨j, hj, heq⟩ := List.mem_range'.mp hmem
      subst heq
      rw [one_mul]
      refine ⟨(resolved.get ⟨j, hj⟩).snd.2.1, ?_⟩
      exact getAttrVar_ub_of_appended
        ((add_vars false m src ps formatters levelNames).fst.commit) m.vars ps.vtype
        ps.name formatters levelNames resolved j hj
        (by simpa [GRBModel.commit] using hvars)
        hwf
        (by simpa [GRBModel.commit, hac] using hclean)
        (by simp [GRBModel.commit, hvars, length_createVars])
  · intro htrue
    subst htrue
    rw [if_pos (by simp)] at hcommit
    intro hdl hmem
    rw [hids] at hmem
    obtain ⟨j, hj, heq⟩ := List.mem_range'.mp hmem
    subst heq
    rw [one_mul]
    refine ⟨(resolved.get ⟨j, hj⟩).snd.2.1, ?_⟩
    exact getAttrVar_ub_of_appended
      ((add_vars true m src ps formatters levelNames).fst) m.vars ps.vtype
      ps.name formatters levelNames resolved j hj hvars hwf
      (by simpa [hac] using hclean) (by simp [hcommit])

/-- Closed instance of C8: one fresh variable on the empty model in
non-interactive mode is unavailable before update and readable after. -/
theorem add_vars_interactive_commit_witness :
    getAttrVar (add_vars false emptyModel { rows := [(Label.scalar "a", [])] } samplePs
        [] []).fst "UB" 0 = .error .attrUnavailable ∧
    ∃ q, getAttrVar ((add_vars false emptyModel { rows := [(Label.scalar "a", [])] }
        samplePs [] []).fst.commit) "UB" 0 = .ok (.num q) := by
  have h := add_vars_interactive_commit false emptyModel
    { rows := [(Label.scalar "a", [])] } samplePs [] []
    (labeledIds 0 [(Label.scalar "a", ((0 : Rat), (1 : Rat), (0 : Rat)))])
    (by intro v hv; cases hv) (by intro w hw; cases hw) (by decide) (by rfl)
  obtain ⟨_, h2, _⟩ := h
  obtain ⟨_, hfail, hsucc⟩ := h2 rfl
  have hm : (0 : Nat) ∈ (labeledIds 0
      [(Label.scalar "a", ((0 : Rat), (1 : Rat), (0 : Rat)))]).map Prod.snd := by
    decide
  exact ⟨hfail 0 hm, hsucc 0 hm⟩

theorem map_lookup_eq_zipWith {β γ δ : Type} (s : List (Label × β))
    (t : List (Label × γ)) (g : (Label × β) → Option γ → δ)
    (hal : labelsOf s = labelsOf t) (hnd : (labelsOf s).Nodup) :
    s.map (fun p => g p (lookupLabel t p.fst)) =
      List.zipWith (fun a b => g a (some b.snd)) s t := by
  induction s generalizing t with
  | nil =>
      cases t with
      | nil => rfl
      | cons q rt => cases hal
  | cons p lt ih =>
      cases t with
      | nil => cases hal
      | cons q rt =>
          obtain ⟨l, a⟩ := p
          obtain ⟨l2, b⟩ := q
          simp only [labelsOf, List.map_cons] at hal hnd
          have hll : l = l2 := (List.cons.injEq _ _ _ _ ▸ hal).1
          have hlt : List.map Prod.fst lt = List.map Prod.fst rt :=
            (List.cons.injEq _ _ _ _ ▸ hal).2
          subst hll
          obtain ⟨hnotmem, hndt⟩ := List.nodup_cons.mp hnd
          simp only [List.map_cons, List.zipWith_cons_cons]
          refine congrArg₂ List.cons ?_ ?_
          · rw [lookupLabel, List.find?_cons_of_pos _ (by simp)]
            rfl
          · have hstep : ∀ p2 ∈ lt,
                g p2 (lookupLabel ((l, b) :: rt) p2.fst) = g p2 (lookupLabel rt p2.fst) := by
              intro p2 hp2
              have hne2 : l ≠ p2.fst := by
                intro he
                exact hnotmem (he ▸ List.mem_map_of_mem Prod.fst hp2)
              rw [lookupLabel_cons_of_ne l b rt p2.fst hne2]
            calc List.map (fun p2 => g p2 (lookupLabel ((l, b) :: rt) p2.fst)) lt
                = List.map (fun p2 => g p2 (lookupLabel rt p2.fst)) lt :=
                  List.map_congr_left hstep
              _ = List.zipWith (fun a2 b2 => g a2 (some b2.snd)) lt rt := ih rt hlt hndt

theorem set_attr_of_valid (m : GRBModel) (handles : List (Label × Nat)) (attr : String)
    (values : List (Label × Rat))
    (hd1 : hasDup (labelsOf handles) = false) (hd2 : hasDup (labelsOf values) = false)
    (hsub1 : setDiff (labelsOf handles) (labelsOf values) = [])
    (hsub2 : setDiff (labelsOf values) (labelsOf handles) = []) :
    set_attr m handles attr values =
      (withWrites m (writesFor handles attr values), .ok ()) := by
  unfold set_attr
  rw [hd1, hd2, hsub1, hsub2]
  simp

theorem getAttrVar_withWrites_cons_ne (m : GRBModel) (w : String × Nat × AttrVal)
    (ws : List (String × Nat × AttrVal)) (attr : String) (hdl : Nat)
    (hne : w.snd.fst ≠ hdl) :
    getAttrVar (withWrites m (w :: ws)) attr hdl =
      getAttrVar (withWrites m ws) attr hdl := by
  rw [getAttrVar, getAttrVar]
  simp only [withWrites]
  by_cases hlt : hdl < m.committedVars
  · rw [if_pos hlt, if_pos hlt, List.cons_append,
      List.find?_cons_of_neg _ (by simp [hne])]
  · rw [if_neg hlt, if_neg hlt]

theorem getAttrVar_withWrites_hit (m : GRBModel) (ws : List (String × Nat × AttrVal))
    (attr : String) (hdl : Nat) (x : AttrVal) (hlt : hdl < m.committedVars) :
    getAttrVar (withWrites m ((attr, hdl, x) :: ws)) attr hdl = .ok x := by
  rw [getAttrVar]
  simp only [withWrites]
  rw [if_pos hlt, List.cons_append, List.find?_cons_of_pos _ (by simp)]

theorem get_attr_skip_write (m : GRBModel) (w : String × Nat × AttrVal)
    (ws : List (String × Nat × AttrVal)) (handles : List (Label × Nat)) (attr : String)
    (hne : ∀ hdl ∈ handles.map Prod.snd, w.snd.fst ≠ hdl) :
    get_attr (withWrites m (w :: ws)) handles attr =
      get_attr (withWrites m ws) handles attr := by
  induction handles with
  | nil => rfl
  | cons p rest ih =>
      obtain ⟨l, h⟩ := p
      rw [get_attr, get_attr,
        getAttrVar_withWrites_cons_ne m w ws attr h (hne h (by simp)),
        ih (fun hdl hm => hne hdl (by simp [hm]))]

theorem get_attr_withWrites (m : GRBModel) (handles : List (Label × Nat))
    (values : List (Label × Rat)) (attr : String)
    (hlen : handles.length = values.length)
    (hidn : (handles.map Prod.snd).Nodup)
    (hcm : ∀ hdl ∈ handles.map Prod.snd, hdl < m.committedVars) :
    get_attr (withWrites m (List.zipWith
        (fun a b => (attr, a.snd, AttrVal.num b.snd)) handles values)) handles attr =
      .ok (List.zipWith (fun a b => (a.fst, AttrVal.num b.snd)) handles values) := by
  induction handles generalizing values with
  | nil => rfl
  | cons p rest ih =>
      cases values with
      | nil => cases hlen
      | cons q vrest =>
          obtain ⟨l, h⟩ := p
          obtain ⟨lv, v⟩ := q
          simp only [List.map_cons, List.nodup_cons] at hidn
          obtain ⟨hnotmem, hidnt⟩ := hidn
          have hlt : h < m.committedVars := hcm h (by simp)
          simp only [List.zipWith_cons_cons]
          rw [get_attr,
            getAttrVar_withWrites_hit m _ attr h (AttrVal.num v) hlt,
            get_attr_skip_write m (attr, h, AttrVal.num v) _ rest attr
              (fun hdl hm he => hnotmem (by
                have he2 : h = hdl := he
                rw [he2]
                exact hm)),
            ih vrest (by simpa using hlen) hidnt
              (fun hdl hm => hcm hdl (by simp [hm]))]

theorem zipWith_fst_eq_map (handles : List (Label × Nat)) (values : List (Label × Rat))
    (hal : labelsOf handles = labelsOf values) :
    List.zipWith (fun a b => (a.fst, AttrVal.num b.snd)) handles values =
      values.map (fun p => (p.fst, AttrVal.num p.snd)) := by
  induction handles generalizing values with
  | nil =>
      cases values with
      | nil => rfl
      | cons q rt => cases hal
  | cons p rest ih =>
      cases values with
      | nil => cases hal
      | cons q vrest =>
          simp only [labelsOf, List.map_cons] at hal
          have hll : p.fst = q.fst := (List.cons.injEq _ _ _ _ ▸ hal).1
          have hlt : List.map Prod.fst rest = List.map Prod.fst vrest :=
            (List.cons.injEq _ _ _ _ ▸ hal).2
          simp only [List.zipWith_cons_cons, List.map_cons]
          exact congrArg₂ List.cons (by rw [hll]) (ih vrest hlt)

theorem add_vars_snd_of_valid (interactive : Bool) (m : GRBModel) (src : Frame)
    (ps : VarParams) (formatters : List (String × (String → String)))
    (levelNames : List String) (resolved : List (Label × Rat × Rat × Rat))
    (hd : hasDup (labelsOf src.rows) = false)
    (hres : resolveRows ps src.rows = .ok resolved) :
    (add_vars interactive m src ps formatters levelNames).snd =
      .ok (labeledIds m.vars.length resolved) := by
  unfold add_vars
  rw [hd, hres]
  simp

/-- C9: writing an aligned value container to an attribute of a series of
committed, pairwise-distinct variable handles and immediately reading the
attribute back returns exactly the written value at every label; likewise the
per-row upper bound given at creation (for example from a data column) reads
back identically through the attribute accessor once the variables are
committed. -/
theorem set_get_attr_roundtrip :
    (∀ (m : GRBModel) (handles : List (Label × Nat)) (attr : String)
        (values : List (Label × Rat)),
      labelsOf handles = labelsOf values →
      (labelsOf handles).Nodup →
      (handles.map Prod.snd).Nodup →
      (∀ hdl ∈ handles.map Prod.snd, hdl < m.committedVars) →
      (set_attr m handles attr values).snd = .ok () ∧
        get_attr (set_attr m handles attr values).fst handles attr =
          .ok (values.map (fun p => (p.fst, AttrVal.num p.snd)))) ∧
    (∀ (interactive : Bool) (m : GRBModel) (src : Frame) (ps : VarParams)
        (formatters : List (String × (String → String))) (levelNames : List String)
        (resolved : List (Label × Rat × Rat × Rat)) (j : Nat)
        (hj : j < resolved.length),
      (∀ v ∈ m.vars, v.id < m.vars.length) →
      (∀ w ∈ m.attrChanges, w.snd.fst < m.vars.length) →
      hasDup (labelsOf src.rows) = false →
      resolveRows ps src.rows = .ok resolved →
      getAttrVar ((add_vars interactive m src ps formatters levelNames).fst.commit)
          "UB" (m.vars.length + j) = .ok (.num (resolved.get ⟨j, hj⟩).snd.2.1)) := by
  constructor
  · intro m handles attr values hal hnd hidn hcm
    have hndv : (labelsOf values).Nodup := hal ▸ hnd
    have hd1 := (hasDup_eq_false_iff (labelsOf handles)).mpr hnd
    have hd2 := (hasDup_eq_false_iff (labelsOf values)).mpr hndv
    have hsub1 : setDiff (labelsOf handles) (labelsOf values) = [] :=
      setDiff_eq_nil_of_subset _ _ (fun l h => by rw [← hal]; exact h)
    have hsub2 : setDiff (labelsOf values) (labelsOf handles) = [] :=
      setDiff_eq_nil_of_subset _ _ (fun l h => by rw [hal]; exact h)
    have hset := set_attr_of_valid m handles attr values hd1 hd2 hsub1 hsub2
    rw [hset]
    refine ⟨rfl, ?_⟩
    have hw : writesFor handles attr values =
        List.zipWith (fun a b => (attr, a.snd, AttrVal.num b.snd)) handles values := by
      rw [writesFor]
      have := map_lookup_eq_zipWith handles values
        (fun p o => (attr, p.snd, AttrVal.num (o.getD 0))) hal hnd
      simpa using this
    have hlen : handles.length = values.length := by
      have := congrArg List.length hal
      simpa [labelsOf] using this
    rw [hw, get_attr_withWrites m handles values attr hlen hidn hcm,
      zipWith_fst_eq_map handles values hal]
  · intro interactive m src ps formatters levelNames resolved j hj hwf hclean hd hres
    have hok := add_vars_snd_of_valid interactive m src ps formatters levelNames
      resolved hd hres
    obtain ⟨resolved2, _, hres2, _, hvars, _, hac, _⟩ :=
      add_vars_ok_elim interactive m src ps formatters levelNames _ hok
    have hre : resolved2 = resolved := by
      rw [hres] at hres2
      cases hres2
      rfl
    subst hre
    exact getAttrVar_ub_of_appended _ m.vars ps.vtype ps.name formatters levelNames
      resolved2 j hj (by simpa [GRBModel.commit] using hvars) hwf
      (by simpa [GRBModel.commit, hac] using hclean)
      (by simp [GRBModel.commit, hvars, length_createVars])

/-- Closed instance of C9: writing then reading Obj on the one-variable model
returns the written value, and the creation upper bound reads back as given. -/
theorem set_get_attr_roundtrip_witness :
    get_attr (set_attr oneVarModel [(Label.scalar "a", 0)] "Obj"
        [(Label.scalar "a", 5)]).fst [(Label.scalar "a", 0)] "Obj" =
      .ok [(Label.scalar "a", AttrVal.num 5)] ∧
    getAttrVar ((add_vars false emptyModel { rows := [(Label.scalar "a", [])] } samplePs
        [] []).fst.commit) "UB" 0 = .ok (.num 1) := by
  constructor
  · exact (set_get_attr_roundtrip.1 oneVarModel [(Label.scalar "a", 0)] "Obj"
      [(Label.scalar "a", 5)] (by rfl) (by decide) (by decide) (by decide)).2
  · have h := set_get_attr_roundtrip.2 false emptyModel
      { rows := [(Label.scalar "a", [])] } samplePs [] []
      [(Label.scalar "a", ((0 : Rat), (1 : Rat), (0 : Rat)))] 0 (by decide)
      (by intro v hv; cases hv) (by intro w hw; cases hw) (by decide) (by rfl)
    exact h

/-- C10: the tabular library's built-in series summation and the solver
library's optimised quicksum aggregation produce equal linear expressions on
every series: the same term list in the same order and the same constant. -/
theorem seriesSum_eq_quicksum (xs : List LinExpr) : seriesSum xs = quicksum xs := by
  rw [seriesSum, quicksum, foldl_linAdd_eq]
  simp [linZero]

end GPPD
